import Mathlib

/-!
# Verification of `json2lua` (DervexDev/json2lua)

Shallow embedding of `src/lib.rs`: the crate converts a parsed JSON value
tree into the text of a Lua table literal.  The embedding translates the
Rust functions `parse`, `walk`, `get_indent` and `validate_string`
directly; the external JSON parsing collaborator (`serde_json::from_str`
into an `IndexMap<String, Value>`) is modelled as an input that is either
syntactically invalid or a parsed root value.
-/

namespace Json2Lua

/-- The JSON value tree produced by the external parser
(`serde_json::Value`, with objects as ordered key/value sequences, the
order being the one in which keys appeared in the source text).
A `num` carries the default decimal text form of the parsed numeric
value, exactly the string that `Number::to_string()` yields; numeric
formatting itself is delegated to the host and not modelled. -/
inductive Value where
  | str (s : String)
  | num (n : String)
  | bool (b : Bool)
  | null
  | arr (a : List Value)
  | obj (o : List (String × Value))

/-- The `match char` in the loop body of `validate_string`: what one input
character contributes to the output. -/
def escChar : Char → String
  | '\n' => "\\n"
  | '\t' => "\\t"
  | '\r' => "\\r"
  | '\\' => "\\\\"
  | '"' => "\\\""
  | c => String.singleton c

/-- Loop of `validate_string`: the growing `validated` buffer is the
accumulator, and each character of the input is inspected in turn. -/
def validate_string_go (validated : String) : List Char → String
  | [] => validated
  | c :: rest => validate_string_go (validated ++ escChar c) rest

/-- `fn validate_string(string: &str) -> String`: a single left-to-right
scan replacing newline, tab, carriage return, backslash and double quote
by their two-character escapes and passing every other character through. -/
def validate_string (string : String) : String :=
  validate_string_go "" string.data

/-- `fn get_indent(depth: usize) -> String`: a loop pushing one tab
character per level onto an initially empty string. -/
def get_indent : Nat → String
  | 0 => ""
  | n + 1 => get_indent n ++ "\t"

/-- The `if let Some(key)` part of `walk`: a present key is emitted as
`["<escaped-key>"] = `, an absent key emits nothing. -/
def key_label : Option String → String
  | some k => "[\"" ++ validate_string k ++ "\"] = "
  | none => ""

mutual

/-- `fn walk(key: Option<&str>, value: &Value, depth: usize) -> String`:
indentation, then the optional bracketed key, then the rendering of the
value, then the unconditional `,\n` terminator. -/
def walk (key : Option String) (value : Value) (depth : Nat) : String :=
  get_indent depth
    ++ key_label key
    ++ (match value with
        | .str s => "\"" ++ validate_string s ++ "\""
        | .num n => n
        | .bool b => if b then "true" else "false"
        | .null => "nil"
        | .arr a => "[\n" ++ walkArr a (depth + 1) ++ get_indent depth ++ "]"
        | .obj o => "\x7b\n" ++ walkObj o (depth + 1) ++ get_indent depth ++ "\x7d")
    ++ ",\n"

/-- The `for v in a` loop inside the `Value::Array` branch of `walk`. -/
def walkArr : List Value → Nat → String
  | [], _ => ""
  | v :: rest, d => walk none v d ++ walkArr rest d

/-- The `for (k, v) in o` loop inside the `Value::Object` branch of
`walk`. -/
def walkObj : List (String × Value) → Nat → String
  | [], _ => ""
  | (k, v) :: rest, d => walk (some k) v d ++ walkObj rest d

end

/-- Input of `parse`, standing for the raw JSON text as the external
parser judges it: either not syntactically valid JSON, or valid with a
given root value. -/
inductive ParseInput where
  | invalid
  | valid (root : Value)

/-- Modelled from the spec: the external parsing collaborator
(`serde_json::from_str` deserializing into `IndexMap<String, Value>`),
whose code is not part of this repository.  Per the spec it fails when
the input text is not syntactically valid JSON, it can only produce an
object at the root (deserializing into a map rejects any non-object
root), and it preserves object key order as encountered in the source. -/
def from_str : ParseInput → Except Unit (List (String × Value))
  | .invalid => .error ()
  | .valid (.obj o) => .ok o
  | .valid _ => .error ()

/-- The `for (key, value) in json` loop of `parse`: note that the key is
passed through `validate_string` here, before `walk` escapes it again. -/
def parseBody : List (String × Value) → String
  | [] => ""
  | (k, v) :: rest => walk (some (validate_string k)) v 1 ++ parseBody rest

/-- `pub fn parse(json: &str) -> Result<String>`: deserialize, then emit
`{\n`, every top-level entry at depth 1, and the closing `}`. -/
def parse (json : ParseInput) : Except Unit String :=
  match from_str json with
  | .error e => .error e
  | .ok json => .ok ("\x7b\n" ++ parseBody json ++ "\x7d")

/-- Reversal of the five documented substitutions, stated from the spec's
words for the round-trip property: a left-to-right scan turning `\n`,
`\t`, `\r`, `\\` and `\"` back into the characters they encode and
copying everything else. -/
def unescape_go : List Char → List Char
  | [] => []
  | c :: rest =>
    if c = '\\' then
      match rest with
      | [] => [c]
      | d :: rest2 =>
        if d = 'n' then '\n' :: unescape_go rest2
        else if d = 't' then '\t' :: unescape_go rest2
        else if d = 'r' then '\r' :: unescape_go rest2
        else if d = '\\' then '\\' :: unescape_go rest2
        else if d = '"' then '"' :: unescape_go rest2
        else c :: unescape_go (d :: rest2)
    else c :: unescape_go rest

/-- String-level wrapper of `unescape_go`. -/
def unescape (s : String) : String :=
  String.mk (unescape_go s.data)

/-! ## Helper lemmas -/

/-- `String.join` distributes over `cons`. -/
lemma join_cons (s : String) (l : List String) :
    String.join (s :: l) = s ++ String.join l := by
  apply String.ext
  simp [String.join_eq, String.data_append]

/-- The buffer accumulated so far is a prefix of the final buffer. -/
lemma validate_string_go_eq (cs : List Char) :
    ∀ acc : String, validate_string_go acc cs = acc ++ validate_string_go "" cs := by
  induction cs with
  | nil => intro acc; simp [validate_string_go, String.append_empty]
  | cons c rest ih =>
    intro acc
    rw [validate_string_go, validate_string_go, ih (acc ++ escChar c),
      ih ("" ++ escChar c), String.empty_append, String.append_assoc]

/-- `validate_string` concatenates the per-character contributions in
input order. -/
lemma validate_string_join (s : String) :
    validate_string s = String.join (s.data.map escChar) := by
  unfold validate_string
  generalize s.data = cs
  induction cs with
  | nil => simp [validate_string_go, String.join]
  | cons c rest ih =>
    rw [validate_string_go, validate_string_go_eq, ih, List.map_cons, join_cons,
      String.empty_append]

/-- A character other than a backslash is copied by `unescape_go`. -/
lemma unescape_go_cons (c : Char) (l : List Char) (h : c ≠ '\\') :
    unescape_go (c :: l) = c :: unescape_go l := by
  rw [unescape_go.eq_def]
  simp [h]

/-- A character that is none of the five escaped ones contributes itself. -/
lemma escChar_other (c : Char) (h1 : c ≠ '\n') (h2 : c ≠ '\t') (h3 : c ≠ '\r')
    (h4 : c ≠ '\\') (h5 : c ≠ '"') : escChar c = String.singleton c := by
  unfold escChar
  split
  iterate 5 simp_all
  rfl

/-- Un-escaping consumes one escaped character and yields it back. -/
lemma unescape_go_esc (c : Char) (l : List Char) :
    unescape_go ((escChar c).data ++ l) = c :: unescape_go l := by
  by_cases h1 : c = '\n'
  · subst h1
    show unescape_go ('\\' :: 'n' :: l) = '\n' :: unescape_go l
    rw [unescape_go]; simp
  by_cases h2 : c = '\t'
  · subst h2
    show unescape_go ('\\' :: 't' :: l) = '\t' :: unescape_go l
    rw [unescape_go]; simp
  by_cases h3 : c = '\r'
  · subst h3
    show unescape_go ('\\' :: 'r' :: l) = '\r' :: unescape_go l
    rw [unescape_go]; simp
  by_cases h4 : c = '\\'
  · subst h4
    show unescape_go ('\\' :: '\\' :: l) = '\\' :: unescape_go l
    rw [unescape_go]; simp
  by_cases h5 : c = '"'
  · subst h5
    show unescape_go ('\\' :: '"' :: l) = '"' :: unescape_go l
    rw [unescape_go]; simp
  rw [escChar_other c h1 h2 h3 h4 h5]
  show unescape_go (c :: l) = c :: unescape_go l
  exact unescape_go_cons c l h4

/-- Un-escaping undoes `validate_string`. -/
lemma unescape_validate (s : String) : unescape (validate_string s) = s := by
  apply String.ext
  rw [validate_string_join]
  show unescape_go (String.join (s.data.map escChar)).data = s.data
  rw [String.join_eq, List.map_map]
  show unescape_go ((s.data.map fun c => (escChar c).data).flatten) = s.data
  induction s.data with
  | nil => simp [unescape_go]
  | cons c rest ih => rw [List.map_cons, List.flatten_cons, unescape_go_esc, ih]

/-- The array loop concatenates the renderings of the elements in input
order. -/
lemma walkArr_join (l : List Value) (d : Nat) :
    walkArr l d = String.join (l.map fun v => walk none v d) := by
  induction l with
  | nil => rw [walkArr]; rfl
  | cons v rest ih => rw [walkArr, ih, List.map_cons, join_cons]

/-- The object loop concatenates the renderings of the members in input
order. -/
lemma walkObj_join (l : List (String × Value)) (d : Nat) :
    walkObj l d = String.join (l.map fun kv => walk (some kv.1) kv.2 d) := by
  induction l with
  | nil => rw [walkObj]; rfl
  | cons kv rest ih =>
    obtain ⟨k, v⟩ := kv
    rw [walkObj, ih, List.map_cons, join_cons]

/-- The top-level loop of `parse` concatenates the renderings of the
top-level entries in input order. -/
lemma parseBody_join (l : List (String × Value)) :
    parseBody l = String.join (l.map fun kv => walk (some (validate_string kv.1)) kv.2 1) := by
  induction l with
  | nil => rw [parseBody]; rfl
  | cons kv rest ih =>
    obtain ⟨k, v⟩ := kv
    rw [parseBody, ih, List.map_cons, join_cons]

/-- `get_indent` builds exactly `depth` tab characters. -/
lemma get_indent_replicate (d : Nat) :
    get_indent d = String.mk (List.replicate d '\t') := by
  induction d with
  | zero => rfl
  | succ n ih =>
    rw [get_indent, ih]
    apply String.ext
    simp [String.data_append, List.replicate_succ',
      show ("\t" : String).data = ['\t'] from rfl]

/-- Joining the singletons of a character list rebuilds the list. -/
lemma join_singletons (cs : List Char) :
    String.join (cs.map String.singleton) = String.mk cs := by
  induction cs with
  | nil => rfl
  | cons c rest ih =>
    rw [List.map_cons, join_cons, ih]
    apply String.ext
    simp [String.data_append, String.singleton]

/-! ## Claim theorems -/

/-- C1: the escaping policy is NOT applied identically at the top level:
`parse` feeds every top-level key through `validate_string` before `walk`
escapes it again, so a top-level key containing a backslash is emitted
with the backslash escaped twice, while the same string as a value (or as
a nested key, second conjunct) is escaped exactly once.  The theorem
evaluates the code at the failing input: the key text between the
brackets has four backslashes where the value text has two. -/
theorem claim1_top_level_key_double_escaped :
    parse (.valid (.obj [("a\\b", .str "a\\b")])) =
      .ok "\x7b\n\t[\"a\\\\\\\\b\"] = \"a\\\\b\",\n\x7d" ∧
    walk (some "a\\b") (.str "a\\b") 1 = "\t[\"a\\\\b\"] = \"a\\\\b\",\n" ∧
    validate_string (validate_string "a\\b") ≠ validate_string "a\\b" := by
  refine ⟨rfl, rfl, ?_⟩
  decide

/-- C2: every JSON primitive is emitted per the documented mapping: a
string as its escaped content in double quotes, a number as the default
decimal text of the parsed numeric value, booleans as the bare words
`true` and `false`, and null as the bare word `nil`. -/
theorem claim2_primitive_literals :
    (∀ (k : Option String) (d : Nat) (s : String),
      walk k (.str s) d =
        get_indent d ++ key_label k ++ ("\"" ++ validate_string s ++ "\"") ++ ",\n") ∧
    (∀ (k : Option String) (d : Nat) (n : String),
      walk k (.num n) d = get_indent d ++ key_label k ++ n ++ ",\n") ∧
    (∀ (k : Option String) (d : Nat),
      walk k (.bool true) d = get_indent d ++ key_label k ++ "true" ++ ",\n") ∧
    (∀ (k : Option String) (d : Nat),
      walk k (.bool false) d = get_indent d ++ key_label k ++ "false" ++ ",\n") ∧
    (∀ (k : Option String) (d : Nat),
      walk k .null d = get_indent d ++ key_label k ++ "nil" ++ ",\n") := by
  refine ⟨?_, ?_, ?_, ?_, ?_⟩ <;> intros <;> rw [walk] <;> simp

/-- C3: every rendered entry (keyed or not, at any depth) ends with a
comma and a newline, and every successful output of `parse` is the
opening brace and newline, then the entries, then a final closing brace
with nothing after it. -/
theorem claim3_trailing_commas :
    (∀ (k : Option String) (v : Value) (d : Nat), ∃ t, walk k v d = t ++ ",\n") ∧
    (∀ (i : ParseInput) (s : String), parse i = .ok s →
      ∃ u, s = "\x7b\n" ++ u ++ "\x7d") := by
  constructor
  · intro k v d
    rw [walk.eq_def]
    exact ⟨_, rfl⟩
  · intro i s h
    cases i with
    | invalid => simp [parse, from_str] at h
    | valid v =>
      cases v with
      | str s => simp [parse, from_str] at h
      | num n => simp [parse, from_str] at h
      | bool b => simp [parse, from_str] at h
      | null => simp [parse, from_str] at h
      | arr a => simp [parse, from_str] at h
      | obj o =>
        simp only [parse, from_str, Except.ok.injEq] at h
        exact ⟨parseBody o, h.symm⟩

/-- C3 witness at concrete inputs. -/
theorem claim3_trailing_commas_witness :
    (∃ t, walk none Value.null 1 = t ++ ",\n") ∧
    (∃ u, ("\x7b\n\x7d" : String) = "\x7b\n" ++ u ++ "\x7d") :=
  ⟨claim3_trailing_commas.1 none Value.null 1,
   claim3_trailing_commas.2 (.valid (.obj [])) "\x7b\n\x7d" rfl⟩

/-- C4: object members are rendered as the concatenation, in input list
order, of their individual renderings, at every depth and also at the top
level of `parse` — no reordering or sorting — and every keyed entry
carries its own bracketed key label. -/
theorem claim4_key_order :
    (∀ (k : Option String) (o : List (String × Value)) (d : Nat),
      walk k (.obj o) d = get_indent d ++ key_label k ++
        ("\x7b\n" ++ String.join (o.map fun kv => walk (some kv.1) kv.2 (d + 1)) ++
          get_indent d ++ "\x7d") ++ ",\n") ∧
    (∀ o : List (String × Value),
      parse (.valid (.obj o)) = .ok
        ("\x7b\n" ++
          String.join (o.map fun kv => walk (some (validate_string kv.1)) kv.2 1) ++
          "\x7d")) ∧
    (∀ (k : String) (v : Value) (d : Nat), ∃ t,
      walk (some k) v d =
        get_indent d ++ ("[\"" ++ validate_string k ++ "\"] = ") ++ t ++ ",\n") := by
  refine ⟨?_, ?_, ?_⟩
  · intro k o d
    rw [walk, walkObj_join]
  · intro o
    show Except.ok ("\x7b\n" ++ parseBody o ++ "\x7d") = _
    rw [parseBody_join]
  · intro k v d
    rw [walk.eq_def]
    exact ⟨_, rfl⟩

/-- C5: an array at depth `d` renders as `[`, a newline, the elements
rendered at depth `d + 1` with no key label in input order, and the
indentation of depth `d` followed by `]`. -/
theorem claim5_array_rendering :
    ∀ (k : Option String) (a : List Value) (d : Nat),
      walk k (.arr a) d = get_indent d ++ key_label k ++
        ("[\n" ++ String.join (a.map fun v => walk none v (d + 1)) ++
          get_indent d ++ "]") ++ ",\n" := by
  intro k a d
  rw [walk, walkArr_join]

/-- C6: `get_indent` yields exactly `depth` tab characters (so depth 0 is
the empty string), and for every container the indentation emitted before
the closing bracket is the same `get_indent d` that opens the container's
own line, i.e. the tab count on both sides equals the nesting depth. -/
theorem claim6_indentation :
    (∀ d, get_indent d = String.mk (List.replicate d '\t')) ∧
    get_indent 0 = "" ∧
    (∀ (k : Option String) (o : List (String × Value)) (d : Nat), ∃ body,
      walk k (.obj o) d = get_indent d ++ key_label k ++
        ("\x7b\n" ++ body ++ get_indent d ++ "\x7d") ++ ",\n") ∧
    (∀ (k : Option String) (a : List Value) (d : Nat), ∃ body,
      walk k (.arr a) d = get_indent d ++ key_label k ++
        ("[\n" ++ body ++ get_indent d ++ "]") ++ ",\n") := by
  refine ⟨get_indent_replicate, rfl, ?_, ?_⟩
  · intro k o d
    rw [walk]
    exact ⟨_, rfl⟩
  · intro k a d
    rw [walk]
    exact ⟨_, rfl⟩

/-- C7: `validate_string` is the left-to-right concatenation of a
per-character substitution which sends newline to `\n`, tab to `\t`,
carriage return to `\r`, backslash to `\\`, double quote to `\"`, and
every other character to itself. -/
theorem claim7_escape_scan :
    (∀ s, validate_string s = String.join (s.data.map escChar)) ∧
    escChar '\n' = "\\n" ∧ escChar '\t' = "\\t" ∧ escChar '\r' = "\\r" ∧
    escChar '\\' = "\\\\" ∧ escChar '"' = "\\\"" ∧
    (∀ c, c ≠ '\n' → c ≠ '\t' → c ≠ '\r' → c ≠ '\\' → c ≠ '"' →
      escChar c = String.singleton c) :=
  ⟨validate_string_join, rfl, rfl, rfl, rfl, rfl, escChar_other⟩

/-- C7 witness at concrete inputs. -/
theorem claim7_escape_scan_witness :
    validate_string "ab" = String.join (("ab" : String).data.map escChar) ∧
    escChar 'x' = String.singleton 'x' :=
  ⟨claim7_escape_scan.1 "ab",
   claim7_escape_scan.2.2.2.2.2.2 'x' (by decide) (by decide) (by decide)
     (by decide) (by decide)⟩

/-- C8: reversing the five substitutions on the escaped output
reconstructs the original string exactly, for every string; and a string
containing none of the five characters is left unchanged by escaping. -/
theorem claim8_escape_roundtrip :
    (∀ s, unescape (validate_string s) = s) ∧
    (∀ s : String,
      (∀ c ∈ s.data, c ≠ '\n' ∧ c ≠ '\t' ∧ c ≠ '\r' ∧ c ≠ '\\' ∧ c ≠ '"') →
      validate_string s = s) := by
  constructor
  · exact unescape_validate
  · intro s h
    rw [validate_string_join]
    have hm : s.data.map escChar = s.data.map String.singleton := by
      apply List.map_congr_left
      intro c hc
      obtain ⟨h1, h2, h3, h4, h5⟩ := h c hc
      exact escChar_other c h1 h2 h3 h4 h5
    rw [hm, join_singletons]

/-- C8 witness at concrete inputs. -/
theorem claim8_escape_roundtrip_witness :
    unescape (validate_string "a\"b") = "a\"b" ∧ validate_string "xy" = "xy" :=
  ⟨claim8_escape_roundtrip.1 "a\"b", claim8_escape_roundtrip.2 "xy" (by decide)⟩

/-- C9: `parse` succeeds exactly on syntactically valid JSON whose root
value is an object, in which case it returns the complete rendering; a
syntactically invalid input or a non-object root (array, string, number,
bool or null) is an error, with no partial output. -/
theorem claim9_parse_error_conditions :
    (∀ i, (∃ s, parse i = .ok s) ↔ ∃ o, i = ParseInput.valid (.obj o)) ∧
    (∀ o, parse (.valid (.obj o)) = .ok ("\x7b\n" ++ parseBody o ++ "\x7d")) := by
  constructor
  · intro i
    constructor
    · rintro ⟨s, hs⟩
      cases i with
      | invalid => simp [parse, from_str] at hs
      | valid v =>
        cases v with
        | str s => simp [parse, from_str] at hs
        | num n => simp [parse, from_str] at hs
        | bool b => simp [parse, from_str] at hs
        | null => simp [parse, from_str] at hs
        | arr a => simp [parse, from_str] at hs
        | obj o => exact ⟨o, rfl⟩
    · rintro ⟨o, rfl⟩
      exact ⟨_, rfl⟩
  · intro o
    rfl

/-- C10: an empty root object renders as `\x7b`, newline, `\x7d`, and an
empty object or array at depth `d` renders as its opening bracket, a
newline, and the indentation of depth `d` immediately followed by the
closing bracket, with no entry lines in between. -/
theorem claim10_empty_containers :
    parse (.valid (.obj [])) = .ok "\x7b\n\x7d" ∧
    (∀ (k : Option String) (d : Nat),
      walk k (.obj []) d =
        get_indent d ++ key_label k ++ ("\x7b\n" ++ get_indent d ++ "\x7d") ++ ",\n") ∧
    (∀ (k : Option String) (d : Nat),
      walk k (.arr []) d =
        get_indent d ++ key_label k ++ ("[\n" ++ get_indent d ++ "]") ++ ",\n") := by
  refine ⟨rfl, ?_, ?_⟩
  · intro k d
    rw [walk, walkObj, String.append_empty]
  · intro k d
    rw [walk, walkArr, String.append_empty]

end Json2Lua
